import Mathlib

/-!
Verification development for the StressNet training pipeline
(`train_short_vegetation.py`).

The pipeline converts per-site, per-variable tabular time series into a
joined, normalized, split training corpus (`h5totf`), and defines a custom
Kling-Gupta-efficiency loss (`kge`).  Data cells are modelled as `Option ℚ`
(`none` is the pandas NaN); the loss is modelled over `ℝ` because it involves
square roots.  Division follows the Lean total-division convention (`x / 0 = 0`),
standing in for the unguarded floating-point divisions of the source.
-/

namespace StressNet

/-- A table cell: `none` models a missing value (pandas NaN). -/
abbrev Cell := Option ℚ

/-- One replacement pass of `DataFrame.replace(to_replace = v, value = nan)`
on a single cell: the value `v` becomes missing, everything else is kept. -/
def replaceCell (v : ℚ) (c : Cell) : Cell :=
  match c with
  | none => none
  | some x => if x = v then none else some x

/-- The two sentinel substitutions of the joiner:
`replace(-9999.0, nan)` followed by `replace(-999.0, nan)`. -/
def replaceSentinels (c : Cell) : Cell :=
  replaceCell (-999) (replaceCell (-9999) c)

/-- The target clamping `tmptar[tmptar > 1] = 1.0` on a single cell:
values strictly greater than 1 become 1; everything else (including
missing values, since `NaN > 1` is false) is kept. -/
def clampCell (c : Cell) : Cell :=
  match c with
  | none => none
  | some x => if 1 < x then some 1 else some x

/-- A row of a table: one cell per column. -/
abbrev Row := List Cell

/-- A row is complete when no cell is missing. -/
def rowComplete (r : Row) : Bool :=
  r.all fun c => c.isSome

/-- `DataFrame.dropna(axis = 0, how = "any")`: keep exactly the complete rows. -/
def dropna (t : List Row) : List Row :=
  t.filter rowComplete

/-- A raw cell is good when it is present and is not one of the sentinel
values `-9999.0`, `-999.0` (the values the joiner turns into NaN). -/
def cellGood (c : Cell) : Bool :=
  match c with
  | none => false
  | some x => !(x = -9999 || x = -999)

/-- Time stamps of the shared (aligned) time index of a site. -/
abbrev Time := ℕ

/-- The data available for one site: the aligned time index produced by
`pd.concat(..., axis = 1)`, the 12 feature series (6 variables in absolute
and anomaly form) and the target series.  A series holds `none` at time
steps where that source has no value. -/
structure SiteData where
  times : List Time
  feat : Fin 12 → Time → Cell
  tar : Time → Cell

/-- The joined row of one site at one time step: the 12 feature cells
followed by the clamped target cell (the clamp `tmptar[tmptar > 1] = 1.0`
is applied when the target table is loaded, before the join). -/
def rowAt (sd : SiteData) (t : Time) : Row :=
  (List.ofFn fun i => sd.feat i t) ++ [clampCell (sd.tar t)]

/-- The per-site table `dattmp = pd.concat(lsttmp, axis = 1)`. -/
def siteTable (sd : SiteData) : List Row :=
  sd.times.map (rowAt sd)

/-- The per-site table after sentinel substitution and
`dropna(axis = 0, how = "any")`. -/
def siteClean (sd : SiteData) : List Row :=
  dropna ((siteTable sd).map fun r => r.map replaceSentinels)

/-- The joined corpus `datfin`: concatenation of the per-site tables,
followed by the (redundant) second `dropna`. -/
def corpusRows (sites : List SiteData) : List Row :=
  dropna (sites.map siteClean).flatten

/-- A time step of a site is complete when all 12 feature cells and the
target cell are present and non-sentinel. -/
def timeComplete (sd : SiteData) (t : Time) : Bool :=
  (List.ofFn fun i => sd.feat i t).all cellGood && cellGood (sd.tar t)

/-- Site catalog loader (`main`, lines 66-68):
`flxsit = pd.read_hdf(...); flxsit = flxsit.dropna(how = "any");
sitreq = flxsit.index`.  A metadata table is a list of
(site identifier, metadata fields) pairs. -/
def loadSites (tbl : List (String × Row)) : List String :=
  (tbl.filter fun r => rowComplete r.2).map Prod.fst

/-- The corpus as plain numbers (`datfin.values`): after `dropna` every cell
is present, so a default of `0` is never read. -/
def corpusQ (sites : List SiteData) : List (List ℚ) :=
  (corpusRows sites).map fun r => r.map fun c => c.getD 0

/-- The values of column `j` of a feature table (`datfin[column j]`). -/
def colVals (feats : List (List ℚ)) (j : ℕ) : List ℚ :=
  feats.map fun r => r.getD j 0

/-- `Series.quantile(q)` with the pandas default linear interpolation: sort the
values, let `h = q * (n - 1)`, and interpolate between the values at
positions `⌊h⌋` and `⌊h⌋ + 1`.  When `h` is an integer the interpolation
weight is `0`, so the out-of-range default is never read. -/
def pandasQuantile (q : ℚ) (xs : List ℚ) : ℚ :=
  let ys := List.insertionSort (fun a b => a ≤ b) xs
  let h : ℚ := q * ((xs.length : ℚ) - 1)
  let i : ℕ := ⌊h⌋₊
  let g : ℚ := h - (i : ℚ)
  ys.getD i 0 + g * (ys.getD (i + 1) 0 - ys.getD i 0)

/-- `datmax = datfin.quantile(0.95)`: the per-column 95th-percentile vector
of the 12 feature columns. -/
def dmaxVec (feats : List (List ℚ)) : List ℚ :=
  (List.range 12).map fun j => pandasQuantile (95 / 100) (colVals feats j)

/-- `datmin = datfin.quantile(0.05)`: the per-column 5th-percentile vector,
computed and returned but never applied to the data. -/
def dminVec (feats : List (List ℚ)) : List ℚ :=
  (List.range 12).map fun j => pandasQuantile (5 / 100) (colVals feats j)

/-- `datfin = datfin / datmax` on one row: divide each feature cell by the
corresponding entry of the 95th-percentile vector. -/
def normalizeRow (dmax : List ℚ) (r : List ℚ) : List ℚ :=
  List.zipWith (fun x m => x / m) r dmax

/-- The split of lines 210-214: `trnsiz = int((trnper / 100) * len(datfin))`
followed by `fullda.take(trnsiz)` and `fullda.skip(trnsiz)`.  For a
non-negative percentage, `int` truncation is the floor, which is natural
division here. -/
def splitData {β : Type} (rows : List β) (trnper : ℕ) : List β × List β :=
  let trnsiz := trnper * rows.length / 100
  (rows.take trnsiz, rows.drop trnsiz)

/-- The error taxonomy the specification assigns to the partitioner. -/
inductive PartitionError where
  | invalidPercent : PartitionError
  | emptyPartition : PartitionError
deriving DecidableEq

/-- Modelled from the spec: the partitioner contract of the specification
("Fails with PartitionError if trainPercent is outside [0,100] or resulting
partition is empty"), stated over non-negative percentages.  This definition
follows the words of the spec; the source has no such checks, so it is compared
against `splitData`, the behavior of the code. -/
def partitionChecked {β : Type} (rows : List β) (trnper : ℕ) :
    Except PartitionError (List β × List β) :=
  if 100 < trnper then Except.error PartitionError.invalidPercent
  else
    let r := splitData rows trnper
    if r.1.isEmpty || r.2.isEmpty then Except.error PartitionError.emptyPartition
    else Except.ok r

/-- The feature matrix of the (unshuffled) corpus: `datfin` after
`tarval = datfin.pop(target)`. -/
def featsOf (sites : List SiteData) : List (List ℚ) :=
  (corpusQ sites).map (List.take 12)

/-- The target column of the (unshuffled) corpus: `tarval`.  Each corpus
row has 13 cells, the target is the last one. -/
def tarsOf (sites : List SiteData) : List ℚ :=
  (corpusQ sites).map fun r => r.getD 12 0

/-- The 95th-percentile vector of the full pre-split corpus. -/
def dmaxOf (sites : List SiteData) : List ℚ :=
  dmaxVec (featsOf sites)

/-- The 5th-percentile vector of the full pre-split corpus. -/
def dminOf (sites : List SiteData) : List ℚ :=
  dminVec (featsOf sites)

/-- The normalized feature matrix `datfin / datmax` of the unshuffled corpus. -/
def normedOf (sites : List SiteData) : List (List ℚ) :=
  (featsOf sites).map (normalizeRow (dmaxOf sites))

/-- `fullda = tf.data.Dataset.from_tensor_slices((datfin.values, tarval.values))`
for the unshuffled corpus: the list of (normalized features, target) pairs. -/
def fullDataset (sites : List SiteData) : List (List ℚ × ℚ) :=
  (normedOf sites).zip (tarsOf sites)

/-- The value returned by `h5totf`: the two batched partitions and the
min/max quantile vectors. -/
structure H5Result where
  train : List (List (List ℚ × ℚ))
  test : List (List (List ℚ × ℚ))
  datmin : List ℚ
  datmax : List ℚ
deriving DecidableEq

/-- The full pipeline `h5totf`.  The three data shuffles of the source
(`datfin.sample(frac = 1)`, `retn01.shuffle(trnsiz)`, `retn02.shuffle(tstsiz)`)
draw from an unseeded random generator; they are modelled as arbitrary
reordering functions `perm`, `permTrn`, `permTst` supplied by the
environment and consulted only when `shufle` is true. -/
def h5totf (sites : List SiteData)
    (perm : List (List ℚ) → List (List ℚ))
    (permTrn permTst : List (List ℚ × ℚ) → List (List ℚ × ℚ))
    (shufle : Bool) (batchn trnper : ℕ) : H5Result :=
  let datfin0 := corpusQ sites
  let datfin1 := if shufle then perm datfin0 else datfin0
  let tarval := datfin1.map fun r => r.getD 12 0
  let datfin2 := datfin1.map (List.take 12)
  let datmin := dminVec datfin2
  let datmax := dmaxVec datfin2
  let datfin3 := datfin2.map (normalizeRow datmax)
  let fullda := datfin3.zip tarval
  let parts := splitData fullda trnper
  let retn01 := if shufle then permTrn parts.1 else parts.1
  let retn02 := if shufle then permTst parts.2 else parts.2
  ⟨List.toChunks batchn retn01, List.toChunks batchn retn02, datmin, datmax⟩

/-! The Kling-Gupta-efficiency loss `kge`, modelled over `ℝ` with batches as
lists.  Each definition mirrors one intermediate variable of the source. -/

/-- `tf.math.reduce_mean`: the arithmetic mean of a batch. -/
noncomputable def rmean (l : List ℝ) : ℝ :=
  l.sum / l.length

/-- The population variance: mean of the squared deviations from the mean. -/
noncomputable def rvar (l : List ℝ) : ℝ :=
  rmean (l.map fun x => (x - rmean l) ^ 2)

/-- `tf.math.reduce_std`: the population standard deviation. -/
noncomputable def rstd (l : List ℝ) : ℝ :=
  Real.sqrt (rvar l)

/-- `acmdev` / `pdmdev`: the batch shifted by its mean. -/
noncomputable def devs (l : List ℝ) : List ℝ :=
  l.map fun x => x - rmean l

/-- `cornum = tf.math.reduce_mean(tf.multiply(acmdev, pdmdev))`. -/
noncomputable def cornum (actual predct : List ℝ) : ℝ :=
  rmean (List.zipWith (fun x y => x * y) (devs actual) (devs predct))

/-- `corden = tf.math.reduce_std(acmdev) * tf.math.reduce_std(pdmdev)`. -/
noncomputable def corden (actual predct : List ℝ) : ℝ :=
  rstd (devs actual) * rstd (devs predct)

/-- `corcof = cornum / corden`: the correlation coefficient. -/
noncomputable def corcof (actual predct : List ℝ) : ℝ :=
  cornum actual predct / corden actual predct

/-- `cratio = (corcof - 1) ** 2`. -/
noncomputable def cratio (actual predct : List ℝ) : ℝ :=
  (corcof actual predct - 1) ^ 2

/-- `stdrat = prestd / actstd`: the variability ratio. -/
noncomputable def stdrat (actual predct : List ℝ) : ℝ :=
  rstd predct / rstd actual

/-- `vratio = (stdrat - 1) ** 2`. -/
noncomputable def vratio (actual predct : List ℝ) : ℝ :=
  (stdrat actual predct - 1) ^ 2

/-- `menrat = pdmean / acmean`: the bias ratio. -/
noncomputable def menrat (actual predct : List ℝ) : ℝ :=
  rmean predct / rmean actual

/-- `bratio = (menrat - 1) ** 2`. -/
noncomputable def bratio (actual predct : List ℝ) : ℝ :=
  (menrat actual predct - 1) ^ 2

/-- `kgeval = 1 - tf.math.sqrt(cratio + vratio + bratio)`. -/
noncomputable def kgeval (actual predct : List ℝ) : ℝ :=
  1 - Real.sqrt (cratio actual predct + vratio actual predct + bratio actual predct)

/-- The loss returned by `kge`: `retn01 = 1 - kgeval`. -/
noncomputable def kge (actual predct : List ℝ) : ℝ :=
  1 - kgeval actual predct

/-- A batch is constant when all its entries are equal. -/
def IsConst (l : List ℝ) : Prop :=
  ∀ x ∈ l, ∀ y ∈ l, x = y

/-! Helper lemmas about cells and the joiner. -/

theorem isSome_replaceSentinels (c : Cell) :
    (replaceSentinels c).isSome = cellGood c := by
  cases c with
  | none => rfl
  | some x =>
    by_cases h1 : x = -9999 <;> by_cases h2 : x = -999 <;>
      simp [replaceSentinels, replaceCell, cellGood, h1, h2]

theorem cellGood_clamp (c : Cell) : cellGood (clampCell c) = cellGood c := by
  cases c with
  | none => rfl
  | some x =>
    by_cases hx : 1 < x
    · have h1 : x ≠ -9999 := by intro h; rw [h] at hx; norm_num at hx
      have h2 : x ≠ -999 := by intro h; rw [h] at hx; norm_num at hx
      simp only [clampCell, if_pos hx, cellGood, h1, h2]
      norm_num
    · simp [clampCell, hx]

theorem isSome_replaceSentinels_clamp (c : Cell) :
    (replaceSentinels (clampCell c)).isSome = cellGood c := by
  rw [isSome_replaceSentinels, cellGood_clamp]

theorem replaceSentinels_good (c : Cell) (h : (replaceSentinels c).isSome = true) :
    ∃ v : ℚ, replaceSentinels c = some v ∧ v ≠ -9999 ∧ v ≠ -999 := by
  cases c with
  | none => simp [replaceSentinels, replaceCell] at h
  | some x =>
    by_cases h1 : x = -9999
    · simp [replaceSentinels, replaceCell, h1] at h
    · by_cases h2 : x = -999
      · simp [replaceSentinels, replaceCell, h1, h2] at h
      · exact ⟨x, by simp [replaceSentinels, replaceCell, h1, h2], h1, h2⟩

theorem rowComplete_processed (sd : SiteData) (t : Time) :
    rowComplete ((rowAt sd t).map replaceSentinels) = timeComplete sd t := by
  simp [rowAt, rowComplete, timeComplete, List.all_map, Function.comp,
    isSome_replaceSentinels, cellGood_clamp, Bool.and_assoc]

theorem siteClean_length (sd : SiteData) :
    (siteClean sd).length = sd.times.countP (timeComplete sd) := by
  unfold siteClean dropna siteTable
  rw [List.map_map, ← List.countP_eq_length_filter, List.countP_map]
  refine List.countP_congr fun t _ => ?_
  simp [Function.comp, rowComplete_processed]

theorem mem_siteClean_complete (sd : SiteData) (r : Row) (h : r ∈ siteClean sd) :
    rowComplete r = true :=
  (List.mem_filter.mp h).2

theorem corpusRows_eq_flatten (sites : List SiteData) :
    corpusRows sites = (sites.map siteClean).flatten := by
  unfold corpusRows dropna
  refine List.filter_eq_self.mpr fun r hr => ?_
  rcases List.mem_flatten.mp hr with ⟨l, hl, hrl⟩
  rcases List.mem_map.mp hl with ⟨sd, _, rfl⟩
  exact mem_siteClean_complete sd r hrl

/-! Claim theorems for the joiner, the clamp and the site catalog. -/

/-- Claim C1: every per-site row with a missing or sentinel value in any of
the 13 columns is excluded from the joined corpus (no corpus cell is missing
or sentinel), and the corpus row count equals the sum over all sites of the
time steps at which all 13 columns are simultaneously present and
non-sentinel. -/
theorem joined_corpus_completeness (sites : List SiteData) :
    (corpusRows sites).length
        = (sites.map fun sd => sd.times.countP (timeComplete sd)).sum
    ∧ ∀ r ∈ corpusRows sites, ∀ c ∈ r,
        ∃ v : ℚ, c = some v ∧ v ≠ -9999 ∧ v ≠ -999 := by
  constructor
  · rw [corpusRows_eq_flatten, List.length_flatten, List.map_map]
    congr 1
    refine List.map_congr_left fun sd _ => ?_
    exact siteClean_length sd
  · intro r hr c hc
    rw [corpusRows_eq_flatten] at hr
    rcases List.mem_flatten.mp hr with ⟨l, hl, hrl⟩
    rcases List.mem_map.mp hl with ⟨sd, _, rfl⟩
    have hcomp := mem_siteClean_complete sd r hrl
    have hmem : r ∈ (siteTable sd).map fun r => r.map replaceSentinels :=
      (List.mem_filter.mp hrl).1
    rcases List.mem_map.mp hmem with ⟨r0, _, rfl⟩
    rcases List.mem_map.mp hc with ⟨c0, _, rfl⟩
    have hsome : ((replaceSentinels c0).isSome : Bool) = true := by
      have hall := List.all_eq_true.mp hcomp
      exact hall _ hc
    exact replaceSentinels_good c0 hsome

/-- A sample site used to instantiate C1: two time steps, the first one
with a sentinel target. -/
def sampleSite : SiteData :=
  ⟨[0, 1], fun _ _ => some 2, fun t => if t = 0 then some (-9999) else some 1⟩

/-- Witness for C1 at a concrete site: the count identity holds, and the
cells of the surviving row are present and non-sentinel. -/
theorem joined_corpus_completeness_witness :
    ((corpusRows [sampleSite]).length
        = ([sampleSite].map fun sd => sd.times.countP (timeComplete sd)).sum)
    ∧ ∃ v : ℚ, (some (2 : ℚ) : Cell) = some v ∧ v ≠ -9999 ∧ v ≠ -999 :=
  ⟨(joined_corpus_completeness [sampleSite]).1,
   (joined_corpus_completeness [sampleSite]).2
     (List.replicate 12 (some 2) ++ [some 1]) (by decide) (some 2) (by decide)⟩

/-- Claim C4: target values strictly greater than 1 are clamped to exactly 1,
and values less than or equal to 1 pass through unchanged. -/
theorem target_clamp (x : ℚ) :
    (1 < x → clampCell (some x) = some 1)
    ∧ (x ≤ 1 → clampCell (some x) = some x) := by
  constructor
  · intro h; simp [clampCell, h]
  · intro h; simp [clampCell, not_lt.mpr h]

/-- Witness for C4 at the values 2 and 0. -/
theorem target_clamp_witness :
    clampCell (some (2 : ℚ)) = some 1 ∧ clampCell (some (0 : ℚ)) = some 0 :=
  ⟨(target_clamp 2).1 (by norm_num), (target_clamp 0).2 (by norm_num)⟩

/-- Claim C9: the clamp `tmptar[tmptar > 1] = 1.0` leaves missing values and
sentinel values unchanged (for them the comparison `value > 1` is false), and
a time step whose target is missing or sentinel is removed from the per-site
table by the sentinel substitution and the row drop. -/
theorem clamp_missing_passthrough :
    clampCell none = none
    ∧ clampCell (some (-9999)) = some (-9999)
    ∧ clampCell (some (-999)) = some (-999)
    ∧ ∀ sd : SiteData, ∀ t : Time,
        (sd.tar t = none ∨ sd.tar t = some (-9999) ∨ sd.tar t = some (-999)) →
        (rowAt sd t).map replaceSentinels ∉ siteClean sd := by
  refine ⟨rfl, by norm_num [clampCell], by norm_num [clampCell], ?_⟩
  intro sd t h hmem
  have hcomp := mem_siteClean_complete sd ((rowAt sd t).map replaceSentinels) hmem
  rw [rowComplete_processed] at hcomp
  have hbad : cellGood (sd.tar t) = false := by
    rcases h with h | h | h <;> simp [h, cellGood]
  rw [timeComplete, hbad, Bool.and_false] at hcomp
  exact Bool.false_ne_true hcomp

/-- A sample site used to instantiate C9: its target is the sentinel -999. -/
def sampleSiteBad : SiteData :=
  ⟨[0], fun _ _ => some 1, fun _ => some (-999)⟩

/-- Witness for C9 at a concrete site whose target is a sentinel. -/
theorem clamp_missing_passthrough_witness :
    (rowAt sampleSiteBad 0).map replaceSentinels ∉ siteClean sampleSiteBad :=
  clamp_missing_passthrough.2.2.2 sampleSiteBad 0 (Or.inr (Or.inr rfl))

/-- Claim C8: the site catalog loader drops exactly the metadata rows with a
missing field and returns the remaining site identifiers in source order
(the returned identifiers form a sublist of the source identifiers, every
complete row contributes its identifier, and every returned identifier comes
from a complete row). -/
theorem site_catalog_filter (tbl : List (String × Row)) :
    (loadSites tbl).Sublist (tbl.map Prod.fst)
    ∧ (∀ r ∈ tbl, rowComplete r.2 = true → r.1 ∈ loadSites tbl)
    ∧ ∀ s ∈ loadSites tbl, ∃ r ∈ tbl, r.1 = s ∧ rowComplete r.2 = true := by
  refine ⟨(List.filter_sublist tbl).map Prod.fst, ?_, ?_⟩
  · intro r hr hc
    exact List.mem_map.mpr ⟨r, List.mem_filter.mpr ⟨hr, hc⟩, rfl⟩
  · intro s hs
    rcases List.mem_map.mp hs with ⟨r, hr, rfl⟩
    exact ⟨r, (List.mem_filter.mp hr).1, rfl, (List.mem_filter.mp hr).2⟩

/-- Witness for C8 on a concrete two-row metadata table: the complete row
keeps its identifier. -/
theorem site_catalog_filter_witness :
    ("A" : String) ∈ loadSites [("A", [some 1]), ("B", [none])] :=
  (site_catalog_filter [("A", [some 1]), ("B", [none])]).2.1
    ("A", [some 1]) (by simp) (by decide)

/-! Claim theorems for the train/validation split. -/

/-- Claim C5: the split index is `floor(trainPercent/100 * N)`, the train
partition is exactly the first `split index` rows and the validation
partition the remaining rows, their sizes sum to `N`, and (on the
position-tagged corpus) the two partitions are disjoint and their
concatenation is the full corpus. -/
theorem corpus_split_partition {β : Type} (rows : List β) (trnper : ℕ)
    (h : trnper ≤ 100) :
    trnper * rows.length / 100 = ⌊(trnper : ℚ) / 100 * rows.length⌋₊
    ∧ (splitData rows trnper).1 = rows.take (trnper * rows.length / 100)
    ∧ (splitData rows trnper).2 = rows.drop (trnper * rows.length / 100)
    ∧ (splitData rows trnper).1.length = trnper * rows.length / 100
    ∧ (splitData rows trnper).1.length + (splitData rows trnper).2.length
        = rows.length
    ∧ List.Disjoint (splitData rows.enum trnper).1 (splitData rows.enum trnper).2
    ∧ (splitData rows.enum trnper).1 ++ (splitData rows.enum trnper).2
        = rows.enum := by
  have hsiz : trnper * rows.length / 100 ≤ rows.length := by
    have h1 : trnper * rows.length ≤ 100 * rows.length :=
      Nat.mul_le_mul_right _ h
    calc trnper * rows.length / 100 ≤ 100 * rows.length / 100 :=
          Nat.div_le_div_right h1
      _ = rows.length := Nat.mul_div_cancel_left _ (by norm_num)
  refine ⟨?_, rfl, rfl, ?_, ?_, ?_, ?_⟩
  · have hcast : (trnper : ℚ) / 100 * rows.length
        = ((trnper * rows.length : ℕ) : ℚ) / ((100 : ℕ) : ℚ) := by
      push_cast
      ring
    rw [hcast, Nat.floor_div_nat, Nat.floor_natCast]
  · simp [splitData, List.length_take, Nat.min_eq_left hsiz]
  · rw [← List.length_append]
    simp [splitData]
  · exact List.disjoint_take_drop
      ((List.nodup_enum_map_fst rows).of_map Prod.fst) le_rfl
  · simp [splitData]

/-- Witness for C5 at a three-row corpus with a 66 percent split. -/
theorem corpus_split_partition_witness :
    (66 : ℕ) ≤ 100
    ∧ (splitData [(5 : ℚ), 6, 7] 66).1.length
        + (splitData [(5 : ℚ), 6, 7] 66).2.length = 3 :=
  ⟨by norm_num, (corpus_split_partition [(5 : ℚ), 6, 7] 66 (by norm_num)).2.2.2.2.1⟩

/-- Counterexample for C7: at `trainPercent = 150` (outside [0,100]) the code
does not fail: it returns the whole corpus as the train partition and an
empty validation partition, where the contract of the specification
(`partitionChecked`) demands a `PartitionError`. -/
theorem partition_no_error_counterexample :
    splitData [(1 : ℚ), 2] 150 = ([1, 2], [])
    ∧ partitionChecked [(1 : ℚ), 2] 150
        = Except.error PartitionError.invalidPercent := by
  constructor <;> rfl

/-- Claim C7 (amended): the partitioner performs no validation and cannot
fail: for every percentage it returns the take/drop pair whose concatenation
is the corpus; a percentage of 100 or more silently yields an empty
validation partition and a percentage of 0 an empty train partition. -/
theorem partition_no_validation {β : Type} (rows : List β) (trnper : ℕ) :
    (splitData rows trnper).1 ++ (splitData rows trnper).2 = rows
    ∧ (100 ≤ trnper → (splitData rows trnper).2 = [])
    ∧ (trnper = 0 → (splitData rows trnper).1 = []) := by
  refine ⟨List.take_append_drop _ _, ?_, ?_⟩
  · intro h
    apply List.drop_eq_nil_of_le
    calc rows.length = 100 * rows.length / 100 :=
          (Nat.mul_div_cancel_left _ (by norm_num)).symm
      _ ≤ trnper * rows.length / 100 :=
          Nat.div_le_div_right (Nat.mul_le_mul_right _ h)
  · intro h
    subst h
    simp [splitData]

/-- Witness for C7 (amended): at 150 percent the validation partition is
empty and no error is raised. -/
theorem partition_no_validation_witness :
    (100 : ℕ) ≤ 150 ∧ (splitData [(1 : ℚ), 2, 3] 150).2 = [] :=
  ⟨by norm_num, (partition_no_validation [(1 : ℚ), 2, 3] 150).2.1 (by norm_num)⟩

/-- Claim C10: with the shuffle flag off the pipeline is deterministic: its
output does not depend on any of the three random reorderings, and it equals
the explicit tuple built from the corpus in site-concatenation order (train =
first `trnsiz` normalized rows, validation = remainder, plus the 5th/95th
percentile vectors of the pre-split corpus). -/
theorem h5totf_shuffle_off_deterministic (sites : List SiteData)
    (batchn trnper : ℕ)
    (p1 q1 : List (List ℚ) → List (List ℚ))
    (p2 p3 q2 q3 : List (List ℚ × ℚ) → List (List ℚ × ℚ)) :
    h5totf sites p1 p2 p3 false batchn trnper
        = h5totf sites q1 q2 q3 false batchn trnper
    ∧ h5totf sites p1 p2 p3 false batchn trnper =
        ⟨List.toChunks batchn (splitData (fullDataset sites) trnper).1,
         List.toChunks batchn (splitData (fullDataset sites) trnper).2,
         dminOf sites, dmaxOf sites⟩ := by
  constructor <;> rfl

/-! Helper lemmas and the claim theorem for normalization. -/

theorem corpusRows_length_13 (sites : List SiteData) :
    ∀ r ∈ corpusRows sites, r.length = 13 := by
  intro r hr
  rw [corpusRows_eq_flatten] at hr
  rcases List.mem_flatten.mp hr with ⟨l, hl, hrl⟩
  rcases List.mem_map.mp hl with ⟨sd, _, rfl⟩
  have hmem : r ∈ (siteTable sd).map fun r => r.map replaceSentinels :=
    (List.mem_filter.mp hrl).1
  rcases List.mem_map.mp hmem with ⟨r0, hr0, rfl⟩
  rcases List.mem_map.mp hr0 with ⟨t, _, rfl⟩
  simp [rowAt]

theorem featsOf_mem_length (sites : List SiteData) :
    ∀ r ∈ featsOf sites, r.length = 12 := by
  intro r hr
  rcases List.mem_map.mp hr with ⟨r0, hr0, rfl⟩
  rcases List.mem_map.mp hr0 with ⟨r1, hr1, rfl⟩
  have h13 := corpusRows_length_13 sites r1 hr1
  simp [List.length_take, h13]

theorem getD_zipWith (f : ℚ → ℚ → ℚ) :
    ∀ (r d : List ℚ) (j : ℕ), j < r.length → j < d.length →
      (List.zipWith f r d).getD j 0 = f (r.getD j 0) (d.getD j 0)
  | [], _, _, h1, _ => absurd h1 (by simp)
  | _ :: _, [], _, _, h2 => absurd h2 (by simp)
  | _ :: _, _ :: _, 0, _, _ => rfl
  | _ :: r, _ :: d, j + 1, h1, h2 => by
    simpa using getD_zipWith f r d j (by simpa using h1) (by simpa using h2)

theorem getD_range_map (f : ℕ → ℚ) (n j : ℕ) (h : j < n) :
    ((List.range n).map f).getD j 0 = f j := by
  simp [List.getD_eq_getElem?_getD, List.getElem?_map, List.getElem?_range, h]

/-- Claim C2: every normalized feature value of the joined corpus equals the
raw value divided by the 95th percentile of that column computed over the full
pre-split corpus; when the percentile is nonzero, multiplying back recovers
the raw value; the 5th-percentile vector is computed (and returned) but the
transform uses only the 95th percentile; and the target column is paired
with the features undivided. -/
theorem feature_normalization (sites : List SiteData) (r : List ℚ) (j : ℕ)
    (hr : r ∈ featsOf sites) (hj : j < 12) :
    (normalizeRow (dmaxOf sites) r).getD j 0
        = r.getD j 0 / pandasQuantile (95 / 100) (colVals (featsOf sites) j)
    ∧ (pandasQuantile (95 / 100) (colVals (featsOf sites) j) ≠ 0 →
        (normalizeRow (dmaxOf sites) r).getD j 0
            * pandasQuantile (95 / 100) (colVals (featsOf sites) j)
          = r.getD j 0)
    ∧ (dminOf sites).getD j 0 = pandasQuantile (5 / 100) (colVals (featsOf sites) j)
    ∧ (fullDataset sites).map Prod.snd = tarsOf sites := by
  have hlen : r.length = 12 := featsOf_mem_length sites r hr
  have hdlen : j < (dmaxOf sites).length := by
    simp [dmaxOf, dmaxVec, hj]
  have hdmax : (dmaxOf sites).getD j 0
      = pandasQuantile (95 / 100) (colVals (featsOf sites) j) := by
    rw [dmaxOf, dmaxVec]
    exact getD_range_map _ 12 j hj
  have hmain : (normalizeRow (dmaxOf sites) r).getD j 0
      = r.getD j 0 / pandasQuantile (95 / 100) (colVals (featsOf sites) j) := by
    rw [normalizeRow, getD_zipWith _ r (dmaxOf sites) j (hlen ▸ hj) hdlen, hdmax]
  refine ⟨hmain, ?_, ?_, ?_⟩
  · intro h0
    rw [hmain, div_mul_cancel₀ _ h0]
  · rw [dminOf, dminVec]
    exact getD_range_map _ 12 j hj
  · refine List.map_snd_zip _ _ (le_of_eq ?_)
    simp [normedOf, featsOf, tarsOf]

/-- A sample site used to instantiate C2: one complete time step. -/
def sampleSiteGood : SiteData :=
  ⟨[0], fun _ _ => some 2, fun _ => some 1⟩

/-- Witness for C2 at a one-row corpus: the first normalized feature equals
the raw value divided by the 95th percentile of the column. -/
theorem feature_normalization_witness :
    (normalizeRow (dmaxOf [sampleSiteGood]) (List.replicate 12 2)).getD 0 0
      = (List.replicate 12 (2 : ℚ)).getD 0 0
          / pandasQuantile (95 / 100) (colVals (featsOf [sampleSiteGood]) 0) :=
  (feature_normalization [sampleSiteGood] (List.replicate 12 2) 0
    (by decide) (by norm_num)).1

/-! Helper lemmas for the Kling-Gupta loss. -/

theorem sum_map_sub_const (l : List ℝ) (c : ℝ) :
    (l.map fun x => x - c).sum = l.sum - l.length * c := by
  induction l with
  | nil => simp
  | cons a t ih =>
    simp [ih]
    ring

theorem sum_const_list (l : List ℝ) (c : ℝ) (h : ∀ x ∈ l, x = c) :
    l.sum = l.length * c := by
  induction l with
  | nil => simp
  | cons a t ih =>
    have ha := h a (List.mem_cons_self a t)
    have ht := ih fun x hx => h x (List.mem_cons_of_mem a hx)
    simp [ha, ht]
    ring

theorem sum_nonneg_all_zero :
    ∀ (l : List ℝ), (∀ x ∈ l, 0 ≤ x) → l.sum = 0 → ∀ x ∈ l, x = 0 := by
  intro l
  induction l with
  | nil => intro _ _ x hx; simp at hx
  | cons a t ih =>
    intro hpos hsum x hx
    have ha : 0 ≤ a := hpos a (List.mem_cons_self a t)
    have ht : 0 ≤ t.sum :=
      List.sum_nonneg fun y hy => hpos y (List.mem_cons_of_mem a hy)
    have hsum2 : a + t.sum = 0 := by simpa using hsum
    have ha0 : a = 0 := le_antisymm (by linarith) ha
    have hts : t.sum = 0 := by linarith
    rcases List.mem_cons.mp hx with rfl | hx2
    · exact ha0
    · exact ih (fun y hy => hpos y (List.mem_cons_of_mem a hy)) hts x hx2

theorem rmean_devs (l : List ℝ) (h : l ≠ []) : rmean (devs l) = 0 := by
  have hlen : (l.length : ℝ) ≠ 0 :=
    Nat.cast_ne_zero.mpr fun h0 => h (List.length_eq_zero.mp h0)
  rw [rmean, devs, sum_map_sub_const, List.length_map, rmean,
    mul_div_cancel₀ _ hlen]
  simp

theorem rvar_devs (l : List ℝ) (h : l ≠ []) : rvar (devs l) = rvar l := by
  rw [rvar, rmean_devs l h]
  unfold devs rvar
  rw [List.map_map]
  refine congrArg rmean (List.map_congr_left fun x _ => ?_)
  simp only [Function.comp_apply, sub_zero]

theorem rvar_nonneg (l : List ℝ) : 0 ≤ rvar l := by
  rw [rvar, rmean]
  refine div_nonneg (List.sum_nonneg fun y hy => ?_) (by positivity)
  rcases List.mem_map.mp hy with ⟨x, _, rfl⟩
  positivity

theorem rstd_eq_zero_iff (l : List ℝ) : rstd l = 0 ↔ rvar l = 0 := by
  rw [rstd]
  exact Real.sqrt_eq_zero (rvar_nonneg l)

theorem rstd_nonneg (l : List ℝ) : 0 ≤ rstd l :=
  Real.sqrt_nonneg _

theorem rmean_const (l : List ℝ) (c : ℝ) (hne : l ≠ [])
    (h : ∀ x ∈ l, x = c) : rmean l = c := by
  have hlen : (l.length : ℝ) ≠ 0 :=
    Nat.cast_ne_zero.mpr fun h0 => hne (List.length_eq_zero.mp h0)
  rw [rmean, sum_const_list l c h, mul_comm, mul_div_assoc,
    div_self hlen, mul_one]

theorem rvar_eq_zero_iff (l : List ℝ) (h : l ≠ []) :
    rvar l = 0 ↔ IsConst l := by
  have hlen : (l.length : ℝ) ≠ 0 :=
    Nat.cast_ne_zero.mpr fun h0 => h (List.length_eq_zero.mp h0)
  constructor
  · intro hv
    have hsum : (l.map fun x => (x - rmean l) ^ 2).sum = 0 := by
      rw [rvar, rmean, List.length_map] at hv
      exact (div_eq_zero_iff.mp hv).resolve_right hlen
    have hall := sum_nonneg_all_zero (l.map fun x => (x - rmean l) ^ 2)
      (fun y hy => by
        rcases List.mem_map.mp hy with ⟨x, _, rfl⟩
        positivity) hsum
    intro x hx y hy
    have hx0 := hall _ (List.mem_map.mpr ⟨x, hx, rfl⟩)
    have hy0 := hall _ (List.mem_map.mpr ⟨y, hy, rfl⟩)
    have hx1 : x = rmean l := by
      have := sq_eq_zero_iff.mp hx0
      linarith
    have hy1 : y = rmean l := by
      have := sq_eq_zero_iff.mp hy0
      linarith
    rw [hx1, hy1]
  · intro hc
    have hhead : ∃ c : ℝ, ∀ x ∈ l, x = c := by
      cases l with
      | nil => exact absurd rfl h
      | cons a t =>
        exact ⟨a, fun x hx => hc x hx a (List.mem_cons_self a t)⟩
    rcases hhead with ⟨c, hcc⟩
    have hm : rmean l = c := rmean_const l c h hcc
    rw [rvar, hm]
    have : (l.map fun x => (x - c) ^ 2) = l.map fun _ => (0 : ℝ) :=
      List.map_congr_left fun x hx => by rw [hcc x hx]; ring
    rw [this, rmean]
    simp

theorem corden_eq (a p : List ℝ) (ha : a ≠ []) (hp : p ≠ []) :
    corden a p = rstd a * rstd p := by
  rw [corden, rstd, rstd, rstd, rstd, rvar_devs a ha, rvar_devs p hp]

theorem rstd_ne_zero_iff (l : List ℝ) (h : l ≠ []) :
    rstd l ≠ 0 ↔ ¬ IsConst l := by
  rw [Ne, rstd_eq_zero_iff, rvar_eq_zero_iff l h]

theorem cornum_self (l : List ℝ) : cornum l l = rvar l := by
  rw [cornum, List.zipWith_same]
  unfold devs rvar
  rw [List.map_map]
  refine congrArg rmean (List.map_congr_left fun x _ => ?_)
  simp only [Function.comp_apply]
  ring

/-! Claim theorems for the Kling-Gupta loss. -/

/-- Counterexample for C3: at the identical non-constant pair
`actual = predicted = [1, -1]` (whose mean is zero) the loss is `1`, not `0`:
the bias ratio divides by `mean(actual) = 0` (NaN in floating point; the junk
value `0` in the exact model), so the claimed "identical non-constant vectors
give loss 0" fails. -/
theorem kge_identical_mean_zero_counterexample :
    kge [(1 : ℝ), -1] [(1 : ℝ), -1] = 1 ∧ ¬ IsConst [(1 : ℝ), -1] := by
  have hm : rmean [(1 : ℝ), -1] = 0 := by norm_num [rmean]
  have hd : devs [(1 : ℝ), -1] = [1, -1] := by simp [devs, hm]
  have hv : rvar [(1 : ℝ), -1] = 1 := by
    rw [rvar, hm]
    norm_num [rmean]
  have hs : rstd [(1 : ℝ), -1] = 1 := by rw [rstd, hv, Real.sqrt_one]
  have hcn : cornum [(1 : ℝ), -1] [(1 : ℝ), -1] = 1 := by
    rw [cornum, hd]
    norm_num [rmean]
  have hcd : corden [(1 : ℝ), -1] [(1 : ℝ), -1] = 1 := by
    rw [corden, hd, hs]
    norm_num
  constructor
  · simp only [kge, kgeval, cratio, corcof, hcn, hcd, vratio, stdrat, hs,
      bratio, menrat, hm]
    norm_num [Real.sqrt_one]
  · intro h
    have h2 := h 1 (by simp) (-1) (by simp)
    norm_num at h2

/-- Claim C3 (amended): for nonempty batches, the loss equals
`1 - (1 - sqrt((r-1)^2 + (std(predicted)/std(actual) - 1)^2
+ (mean(predicted)/mean(actual) - 1)^2))`; when predicted equals actual and
actual is non-constant with nonzero mean, the loss is `0`; when predicted is
negatively correlated with actual (negative covariance, both non-constant),
the loss is greater than `1`. -/
theorem kge_formula (a p : List ℝ) (ha : a ≠ []) (hp : p ≠ []) :
    kge a p = 1 - (1 - Real.sqrt ((corcof a p - 1) ^ 2
        + (rstd p / rstd a - 1) ^ 2 + (rmean p / rmean a - 1) ^ 2))
    ∧ (a = p → ¬ IsConst a → rmean a ≠ 0 → kge a p = 0)
    ∧ (cornum a p < 0 → ¬ IsConst a → ¬ IsConst p → 1 < kge a p) := by
  refine ⟨rfl, ?_, ?_⟩
  · rintro rfl hc hm
    have hv : rvar a ≠ 0 := fun h0 => hc ((rvar_eq_zero_iff a ha).mp h0)
    have hs : rstd a ≠ 0 := (rstd_ne_zero_iff a ha).mpr hc
    have hss : rstd a * rstd a = rvar a := Real.mul_self_sqrt (rvar_nonneg a)
    have hcor : corcof a a = 1 := by
      rw [corcof, cornum_self, corden_eq a a ha ha, hss, div_self hv]
    simp only [kge, kgeval, cratio, hcor, vratio, stdrat, div_self hs,
      bratio, menrat, div_self hm]
    norm_num [Real.sqrt_zero]
  · intro hneg hca hcp
    have hsa := (rstd_ne_zero_iff a ha).mpr hca
    have hsp := (rstd_ne_zero_iff p hp).mpr hcp
    have hsa0 : 0 < rstd a := lt_of_le_of_ne (rstd_nonneg a) (Ne.symm hsa)
    have hsp0 : 0 < rstd p := lt_of_le_of_ne (rstd_nonneg p) (Ne.symm hsp)
    have hcd : 0 < corden a p := by
      rw [corden_eq a p ha hp]
      exact mul_pos hsa0 hsp0
    have hcc : corcof a p < 0 := div_neg_of_neg_of_pos hneg hcd
    have h1 : 1 < cratio a p := by
      simp only [cratio]
      nlinarith
    have h2 : 0 ≤ vratio a p := by simp only [vratio]; positivity
    have h3 : 0 ≤ bratio a p := by simp only [bratio]; positivity
    have hsum : 1 < cratio a p + vratio a p + bratio a p := by linarith
    have hsq : 1 < Real.sqrt (cratio a p + vratio a p + bratio a p) := by
      have h4 := Real.sqrt_lt_sqrt (by norm_num : (0 : ℝ) ≤ 1) hsum
      rwa [Real.sqrt_one] at h4
    simp only [kge, kgeval]
    linarith

/-- Witness for C3 (amended): identical non-constant batches with nonzero
mean give loss exactly 0. -/
theorem kge_formula_witness : kge [(0 : ℝ), 2] [(0 : ℝ), 2] = 0 :=
  (kge_formula [(0 : ℝ), 2] [(0 : ℝ), 2] (by simp) (by simp)).2.1 rfl
    (fun h => by have h2 := h 0 (by simp) 2 (by simp); norm_num at h2)
    (by norm_num [rmean])

/-- Counterexample for C6: at the constant batch `actual = predicted = [1, 1]`
the standard deviation of `actual` and the correlation denominator are both
exactly `0`, and `kge` divides by them unguarded (`corcof = cornum / corden`,
`stdrat = prestd / actstd`), so the code does not produce a guarded value:
in floating point these `0/0` divisions propagate NaN. -/
theorem kge_zero_variance_counterexample :
    rstd [(1 : ℝ), 1] = 0 ∧ corden [(1 : ℝ), 1] [(1 : ℝ), 1] = 0 := by
  have hv : rvar [(1 : ℝ), 1] = 0 := by
    refine (rvar_eq_zero_iff [(1 : ℝ), 1] (by simp)).mpr ?_
    intro x hx y hy
    simp at hx hy
    rw [hx, hy]
  have hs : rstd [(1 : ℝ), 1] = 0 := by rw [rstd, hv, Real.sqrt_zero]
  refine ⟨hs, ?_⟩
  rw [corden_eq _ _ (by simp) (by simp), hs, zero_mul]

/-- Claim C6 (amended): the three division denominators of `kge` (the
correlation denominator, `std(actual)` and `mean(actual)`) are simultaneously
nonzero exactly when both batches are non-constant and `mean(actual)` is
nonzero; outside that precondition a denominator is zero and the source
divides by it without any guard. -/
theorem kge_denominators (a p : List ℝ) (ha : a ≠ []) (hp : p ≠ []) :
    (corden a p ≠ 0 ∧ rstd a ≠ 0 ∧ rmean a ≠ 0)
      ↔ (¬ IsConst a ∧ ¬ IsConst p ∧ rmean a ≠ 0) := by
  rw [corden_eq a p ha hp]
  constructor
  · rintro ⟨hcd, hsa, hm⟩
    have hsp : rstd p ≠ 0 := by
      intro h0
      exact hcd (by rw [h0, mul_zero])
    exact ⟨(rstd_ne_zero_iff a ha).mp hsa, (rstd_ne_zero_iff p hp).mp hsp, hm⟩
  · rintro ⟨hca, hcp, hm⟩
    have hsa := (rstd_ne_zero_iff a ha).mpr hca
    have hsp := (rstd_ne_zero_iff p hp).mpr hcp
    exact ⟨mul_ne_zero hsa hsp, hsa, hm⟩

/-- Witness for C6 (amended): at a concrete non-constant pair with nonzero
mean, all three denominators are nonzero. -/
theorem kge_denominators_witness :
    corden [(0 : ℝ), 2] [(1 : ℝ), 3] ≠ 0 ∧ rstd [(0 : ℝ), 2] ≠ 0
      ∧ rmean [(0 : ℝ), 2] ≠ 0 := by
  have hca : ¬ IsConst [(0 : ℝ), 2] := fun h => by
    have h2 := h 0 (by simp) 2 (by simp)
    norm_num at h2
  have hcp : ¬ IsConst [(1 : ℝ), 3] := fun h => by
    have h2 := h 1 (by simp) 3 (by simp)
    norm_num at h2
  have hm : rmean [(0 : ℝ), 2] ≠ 0 := by norm_num [rmean]
  exact (kge_denominators [(0 : ℝ), 2] [(1 : ℝ), 3] (by simp) (by simp)).mpr
    ⟨hca, hcp, hm⟩

end StressNet
